import Mathlib

/-!
Shallow embedding of the ledger, projection, continuity-merge and precheck
logic of `src/main.py` (Life Simulation Backend API), together with proofs
about it.

Modelling conventions:
* Python `float` amounts are modelled as exact rationals (`ℚ`).
* A line of the JSONL event log is `Option LoggedEvent`: `none` stands for a
  line that `json.loads` rejects (the code skips such lines), `some e` for a
  parsed record.
* The nondeterministic inputs of the code — `uuid.uuid4()` and
  `datetime.utcnow()` — are passed in as explicit parameters.
* Python dicts used as accumulators (`totals`, `stock`) are association
  lists with Python's assignment semantics: replacing the value of the first
  occurrence of a present key in place, appending a new key at the end.
* The durable medium of the JSONL log is modelled with a remaining write
  `capacity`; an append with no capacity left raises (`StorageFailure`).
-/

namespace GameMaster

/-- Model of an untyped JSON object (Python `Dict[str, Any]`); its content is
irrelevant to every claim, it is only carried around. -/
abbrev Props := List (String × String)

/-- `ActorRef` of src/main.py. -/
structure ActorRef where
  role : String
  playerId : Option String := none
  npcId : Option String := none
deriving Repr, DecidableEq

/-- `Balance` of src/main.py. -/
structure Balance where
  currency : String
  amount : ℚ
deriving Repr, DecidableEq

/-- `MoneyDelta` of src/main.py. -/
structure MoneyDelta where
  ownerType : String
  ownerId : String
  currency : String
  amount : ℚ
  reason : Option String := none
deriving Repr, DecidableEq

/-- `Item` of src/main.py. -/
structure Item where
  name : String
  amount : ℚ
  value : Option ℚ := none
  props : Option Props := none
deriving Repr, DecidableEq

/-- `InventoryDelta` of src/main.py. -/
structure InventoryDelta where
  ownerType : String
  ownerId : String
  op : String
  item : Item
  reason : Option String := none
deriving Repr, DecidableEq

/-- `RelationshipDelta` of src/main.py. -/
structure RelationshipDelta where
  sourceId : String
  targetId : String
  targetType : String
  attitudeChange : ℚ
  publicShift : Option ℚ := none
  notes : Option String := none
deriving Repr, DecidableEq

/-- `KnowledgeScope` of src/main.py. -/
structure KnowledgeScope where
  visibility : String
  observedByNpcIds : List String := []
  observedByPlayer : Bool := true
  hiddenFromNpcIds : List String := []
  location : Option String := none
  notes : Option String := none
deriving Repr, DecidableEq

/-- `EventInput` of src/main.py. -/
structure EventInput where
  actor : ActorRef
  type : String
  summary : String
  details : Option String := none
  feeling : Option String := none
  moneyDeltas : List MoneyDelta := []
  inventoryDeltas : List InventoryDelta := []
  relationshipDeltas : List RelationshipDelta := []
  knowledgeScope : Option KnowledgeScope := none
deriving Repr, DecidableEq

/-- `HistoryQuery` of src/main.py. -/
structure HistoryQuery where
  playerId : Option String := none
  sceneId : Option String := none
  npcIds : List String := []
  limit : Int := 50
  sort : String := "desc"
deriving Repr, DecidableEq

/-- `PrecheckResult` of src/main.py. -/
structure PrecheckResult where
  summary : String
  logicConsistent : Bool
  knowledgeLeaksDetected : Bool
  npcIndividualityMaintained : Bool
  gmAuthorityRespected : Bool
  storyAdvancing : Bool
  errors : List String := []
deriving Repr, DecidableEq

/-- `PrecheckLatestProposalData` of src/main.py. -/
structure PrecheckLatestProposalData where
  characterIds : List String := []
  involvedNpcIds : List String := []
  moneyDeltas : List MoneyDelta := []
  inventoryDeltas : List InventoryDelta := []
  relationshipDeltas : List RelationshipDelta := []
deriving Repr, DecidableEq

/-- `PrecheckLatestProposal` of src/main.py. -/
structure PrecheckLatestProposal where
  summary : Option String := none
  data : Option PrecheckLatestProposalData := none
deriving Repr, DecidableEq

/-- `PrecheckRequest` of src/main.py. -/
structure PrecheckRequest where
  playerId : Option String := none
  historyQuery : Option HistoryQuery := none
  latestProposal : Option PrecheckLatestProposal := none
  checks : List String := []
deriving Repr, DecidableEq

/-- `PlayerStats` of src/main.py. -/
structure PlayerStats where
  money : ℚ := 0
deriving Repr, DecidableEq

/-- `Player` of src/main.py. -/
structure Player where
  playerId : String
  name : Option String := none
  location : Option String := none
  stats : PlayerStats := {}
  wallets : List Balance := []
deriving Repr, DecidableEq

/-- `LoggedEvent` of src/main.py. -/
structure LoggedEvent where
  eventId : Option String := none
  timestamp : Option String := none
  playerId : Option String := none
  sceneId : Option String := none
  summary : String
  detail : Option String := none
  outcomes : List EventInput := []
  notes : Option String := none
deriving Repr, DecidableEq

/-- `UpdatePlayerRequest` of src/main.py. -/
structure UpdatePlayerRequest where
  name : Option String := none
  location : Option String := none
  stats : Option PlayerStats := none
  wallets : Option (List Balance) := none
deriving Repr, DecidableEq

/-- `ResolveReviewConfig` of src/main.py; the source field `include` is a Lean
keyword and is rendered `includeReview`. -/
structure ResolveReviewConfig where
  includeReview : Bool := true
  historyQuery : Option HistoryQuery := none
  checks : List String := []
deriving Repr, DecidableEq

/-- `ResolveTurnRequest` of src/main.py. -/
structure ResolveTurnRequest where
  playerId : String
  sceneId : Option String := none
  basedOnEventIds : List String := []
  outcomes : List EventInput := []
  review : Option ResolveReviewConfig := none
deriving Repr, DecidableEq

/-- A physical line of `event_log.jsonl`: `none` when `json.loads` fails on
it, `some e` when it parses to a record. -/
abbrev RawLine := Option LoggedEvent

/-- Python truthiness of the `Optional[str]` query parameters: `None` and the
empty string are falsy. -/
def pyTruthy (s : Option String) : Bool :=
  match s with
  | some str => str ≠ ""
  | none => false

/-- Python dict lookup (`d.get(k)`) on an insertion-ordered association
list. -/
def dictGet {β : Type} : List (String × β) → String → Option β
  | [], _ => none
  | p :: t, k => if p.1 == k then some p.2 else dictGet t k

/-- Python dict assignment (`d[k] = v`): replaces the value of a present key
in place, appends a missing key at the end. -/
def dictSet {β : Type} : List (String × β) → String → β → List (String × β)
  | [], k, v => [(k, v)]
  | p :: t, k, v => if p.1 == k then (p.1, v) :: t else p :: dictSet t k v

/-- Python slicing `l[:k]` (a negative `k` drops `|k|` elements from the
end). -/
def pySliceTo {α : Type} (l : List α) (k : Int) : List α :=
  if 0 ≤ k then l.take k.toNat else l.take (l.length - (-k).toNat)

/-- `gpt_precheck` (src/main.py lines 469-484): the handler echoes the
summary and returns fixed all-pass verdicts with an empty error list. -/
def gpt_precheck (payload : PrecheckRequest) : PrecheckResult :=
  let summary : Option String :=
    match payload.latestProposal with
    | some p => p.summary
    | none => some ""
  let summaryOut : String :=
    match summary with
    | some s => if s = "" then "No summary provided" else s
    | none => "No summary provided"
  { summary := summaryOut
    logicConsistent := true
    knowledgeLeaksDetected := false
    npcIndividualityMaintained := true
    gmAuthorityRespected := true
    storyAdvancing := true
    errors := [] }

/-- `update_player` (src/main.py lines 572-596); `existing` models
`players.get(playerId)`. Each payload field overwrites the stored one exactly
when it `is not None`. -/
def update_player (existing : Option Player) (playerId : String)
    (payload : UpdatePlayerRequest) : Player :=
  let player : Player :=
    match existing with
    | some p => p
    | none => { playerId := playerId }
  let player : Player :=
    match payload.name with
    | some n => { player with name := some n }
    | none => player
  let player : Player :=
    match payload.location with
    | some l => { player with location := some l }
    | none => player
  let player : Player :=
    match payload.stats with
    | some s => { player with stats := s }
    | none => player
  match payload.wallets with
  | some w => { player with wallets := w }
  | none => player

/-- State of the durable JSONL event log: its persisted lines and the number
of appends the medium can still take before `_append_jsonl` raises. -/
structure EventStoreState where
  log : List LoggedEvent
  capacity : Nat
deriving Repr, DecidableEq

/-- `_append_jsonl` on `EVENT_LOG_FILE` (src/main.py lines 62-64): appends one
record, or raises (`StorageFailure`) when the medium is unavailable. -/
def appendJsonl (st : EventStoreState) (e : LoggedEvent) :
    Except Unit EventStoreState :=
  match st.capacity with
  | 0 => Except.error ()
  | Nat.succ c => Except.ok { log := st.log ++ [e], capacity := c }

/-- The `LoggedEvent` that `resolve_turn` builds for one outcome
(src/main.py lines 622-630), with the `uuid.uuid4()` and `utcnow()` values
passed in. -/
def mkTurnEvent (req : ResolveTurnRequest) (o : EventInput)
    (freshId nowTs : String) : LoggedEvent :=
  { eventId := some freshId
    timestamp := some nowTs
    playerId := some req.playerId
    sceneId := req.sceneId
    summary := o.summary
    detail := o.details
    outcomes := [o]
    notes := none }

/-- The `for outcome in req.outcomes` loop of `resolve_turn`: one append per
outcome; an exception from `_append_jsonl` aborts the loop, leaving the
already appended events persisted. `idts` supplies (uuid, timestamp) pairs. -/
def resolveLoop (req : ResolveTurnRequest) :
    EventStoreState → List EventInput → List (String × String) →
    EventStoreState × Bool
  | st, [], _ => (st, true)
  | st, o :: os, idts =>
      match appendJsonl st
          (mkTurnEvent req o (idts.headD ("", "")).1 (idts.headD ("", "")).2) with
      | Except.error _ => (st, false)
      | Except.ok st2 => resolveLoop req st2 os idts.tail

/-- The JSON body `resolve_turn` returns (src/main.py line 633). -/
structure ResolveTurnResponse where
  status : String
  numEvents : Nat
deriving Repr, DecidableEq

/-- `resolve_turn` (src/main.py lines 615-633): appends one event per outcome
in proposal order and returns `{"status": "applied", "numEvents": n}`; an
append failure propagates as an error, with the earlier appends kept. -/
def resolve_turn (st : EventStoreState) (req : ResolveTurnRequest)
    (idts : List (String × String)) :
    EventStoreState × Except Unit ResolveTurnResponse :=
  match resolveLoop req st req.outcomes idts with
  | (st2, true) =>
      (st2, Except.ok { status := "applied", numEvents := req.outcomes.length })
  | (st2, false) => (st2, Except.error ())

/-- `append_event_log` (src/main.py lines 712-720), persisted record: the
incoming event with a fresh id assigned when it has none and the current
timestamp assigned when it has none. -/
def append_event_log (event : LoggedEvent) (freshId nowTs : String) :
    LoggedEvent :=
  let event : LoggedEvent :=
    match event.eventId with
    | none => { event with eventId := some freshId }
    | some _ => event
  match event.timestamp with
  | none => { event with timestamp := some nowTs }
  | some _ => event

/-- The per-event filter of `get_event_log`: an event is dropped when the
query parameter is truthy and differs from the event's field. -/
def matchesFilter (param : Option String) (value : Option String) : Bool :=
  match param with
  | none => true
  | some p => if p = "" then true else value == some p

/-- The combined playerId/sceneId filter of `get_event_log`. -/
def keepEvent (playerId sceneId : Option String) (e : LoggedEvent) : Bool :=
  matchesFilter playerId e.playerId && matchesFilter sceneId e.sceneId

/-- Sort key of `get_event_log`: `e.get("timestamp", "")`. -/
def eventSortKey (e : LoggedEvent) : String := e.timestamp.getD ""

/-- `get_event_log` (src/main.py lines 723-746): collect the parseable,
filter-passing lines, sort by timestamp descending (Python's `sorted` is
stable; `reverse=True` reverses each comparison), and truncate to `limit`. -/
def get_event_log (rawLog : List RawLine) (playerId sceneId : Option String)
    (limit : Int) : List LoggedEvent :=
  let events : List LoggedEvent :=
    rawLog.foldl (fun acc line =>
      match line with
      | none => acc
      | some e => if keepEvent playerId sceneId e then acc ++ [e] else acc) []
  let sortedEvents :=
    events.mergeSort (fun a b => decide (eventSortKey b ≤ eventSortKey a))
  pySliceTo sortedEvents limit

/-- The body of the balances replay loop of `get_balances` for one
MoneyDelta: `totals[cur] = totals.get(cur, 0.0) + amt` when the owner
matches. -/
def moneyStep (ownerType ownerId : String) (totals : List (String × ℚ))
    (md : MoneyDelta) : List (String × ℚ) :=
  if md.ownerType = ownerType ∧ md.ownerId = ownerId then
    dictSet totals md.currency ((dictGet totals md.currency).getD 0 + md.amount)
  else totals

/-- The inner two loops of `get_balances` for one parsed log entry. -/
def balanceFold (ownerType ownerId : String) (totals : List (String × ℚ))
    (entry : LoggedEvent) : List (String × ℚ) :=
  entry.outcomes.foldl (fun totals o =>
    o.moneyDeltas.foldl (moneyStep ownerType ownerId) totals) totals

/-- `get_balances` (src/main.py lines 779-815): replay the MoneyDeltas of the
parseable lines into per-currency totals, render them as balances, and filter
by the optional currency parameter. -/
def get_balances (rawLog : List RawLine) (ownerType ownerId : String)
    (currency : Option String) : List Balance :=
  let totals : List (String × ℚ) :=
    rawLog.foldl (fun totals line =>
      match line with
      | none => totals
      | some entry => balanceFold ownerType ownerId totals entry) []
  let balances := totals.map (fun p => Balance.mk p.1 p.2)
  if pyTruthy currency then
    balances.filter (fun b => b.currency == currency.getD "")
  else balances

/-- The body of the inventory replay loop of `get_inventory_snapshot` for one
InventoryDelta: skip non-matching owners and empty item names, apply
`add`/`remove`/`set` to the running amount (any other op leaves it), and
store the item back under its name. -/
def applyInventoryDelta (ownerType ownerId : String)
    (stock : List (String × Item)) (invd : InventoryDelta) :
    List (String × Item) :=
  if invd.ownerType = ownerType ∧ invd.ownerId = ownerId then
    if invd.item.name = "" then stock
    else
      let name := invd.item.name
      let item : Item :=
        match dictGet stock name with
        | some it => it
        | none =>
            { name := name, amount := 0, value := invd.item.value
              props := invd.item.props }
      let item : Item :=
        if invd.op = "add" then { item with amount := item.amount + invd.item.amount }
        else if invd.op = "remove" then { item with amount := item.amount - invd.item.amount }
        else if invd.op = "set" then { item with amount := invd.item.amount }
        else item
      dictSet stock name item
  else stock

/-- The inner two loops of `get_inventory_snapshot` for one parsed log
entry. -/
def inventoryFold (ownerType ownerId : String) (stock : List (String × Item))
    (entry : LoggedEvent) : List (String × Item) :=
  entry.outcomes.foldl (fun stock o =>
    o.inventoryDeltas.foldl (applyInventoryDelta ownerType ownerId) stock) stock

/-- `get_inventory_snapshot` (src/main.py lines 818-873): replay the
InventoryDeltas of the parseable lines into a per-name stock and return the
items whose amount is not zero. -/
def get_inventory_snapshot (rawLog : List RawLine)
    (ownerType ownerId : String) : List Item :=
  let stock : List (String × Item) :=
    rawLog.foldl (fun stock line =>
      match line with
      | none => stock
      | some entry => inventoryFold ownerType ownerId stock entry) []
  (stock.map (fun p => p.2)).filter (fun i => decide (i.amount ≠ 0))

/-! ### Specification-side definitions

Definitions in this part express what the specification's sentences say
(extraction of the matching deltas, the running-sum / running-quantity folds,
the merge rule and the store-timestamp invariant), to be compared with the
code-side functions above. -/

/-- The subsequence of well-formed (parseable) lines of a raw log. -/
def wellFormedLines (rawLog : List RawLine) : List RawLine :=
  (rawLog.filterMap id).map some

/-- All MoneyDeltas of a raw log, in replay order (lines, then outcomes, then
deltas). -/
def flatMoneyDeltas (rawLog : List RawLine) : List MoneyDelta :=
  ((rawLog.filterMap id).flatMap (fun e => e.outcomes)).flatMap
    (fun o => o.moneyDeltas)

/-- The amounts, among a list of MoneyDeltas, matching a
(ownerType, ownerId, currency) key, in order. -/
def selectMoney (ownerType ownerId currency : String)
    (l : List MoneyDelta) : List ℚ :=
  l.filterMap (fun md =>
    if md.ownerType = ownerType ∧ md.ownerId = ownerId ∧ md.currency = currency
    then some md.amount else none)

/-- The amounts of the MoneyDeltas of a raw log matching a
(ownerType, ownerId, currency) key, in log order. -/
def matchingAmounts (rawLog : List RawLine)
    (ownerType ownerId currency : String) : List ℚ :=
  selectMoney ownerType ownerId currency (flatMoneyDeltas rawLog)

/-- All InventoryDeltas of a raw log, in replay order. -/
def flatInventoryDeltas (rawLog : List RawLine) : List InventoryDelta :=
  ((rawLog.filterMap id).flatMap (fun e => e.outcomes)).flatMap
    (fun o => o.inventoryDeltas)

/-- The InventoryDeltas, among a list of deltas, matching an owner and an
item name, in order. -/
def selectInv (ownerType ownerId name : String)
    (l : List InventoryDelta) : List InventoryDelta :=
  l.filter (fun d =>
    decide (d.ownerType = ownerType ∧ d.ownerId = ownerId ∧ d.item.name = name))

/-- The InventoryDeltas of a raw log matching an owner and an item name, in
log order. -/
def matchingInventoryDeltas (rawLog : List RawLine)
    (ownerType ownerId name : String) : List InventoryDelta :=
  selectInv ownerType ownerId name (flatInventoryDeltas rawLog)

/-- One step of the per-item quantity fold stated by the specification:
`add` increments, `remove` decrements, `set` replaces (any other op leaves
the quantity unchanged). -/
def invStep (q : ℚ) (d : InventoryDelta) : ℚ :=
  if d.op = "add" then q + d.item.amount
  else if d.op = "remove" then q - d.item.amount
  else if d.op = "set" then d.item.amount
  else q

/-- The running quantity of an item: the fold of `invStep` over the matching
deltas in log order, starting from 0. -/
def inventoryAmount (rawLog : List RawLine)
    (ownerType ownerId name : String) : ℚ :=
  (matchingInventoryDeltas rawLog ownerType ownerId name).foldl invStep 0

/-- Modelled from the spec: the claimed field-wise merge rule, `result.field =
incoming.field if incoming.field is present and non-empty else
stored.field`. -/
def specMergeField (stored incoming : Option String) : Option String :=
  match incoming with
  | some s => if s = "" then stored else some s
  | none => stored

/-- The timestamp the store assigns during one append step
`(incoming event, fresh id, now)` — `some now` exactly when the incoming
event carries no timestamp. -/
def assignedTimestamp (step : LoggedEvent × String × String) : Option String :=
  match step.1.timestamp with
  | none => some step.2.2
  | some _ => none

/-- The last timestamp the store assigned strictly before step `k` of a run
of appends. -/
def lastAssignedBefore (steps : List (LoggedEvent × String × String))
    (k : Nat) : Option String :=
  ((steps.take k).filterMap assignedTimestamp).getLast?

/-- The events a run of `append_event_log` steps persists, in order. -/
def persistedLog (steps : List (LoggedEvent × String × String)) :
    List LoggedEvent :=
  steps.map (fun s => append_event_log s.1 s.2.1 s.2.2)

/-- Modelled from the spec: within a single store instance, every persisted
event's timestamp is ≥ the timestamp the store last assigned before that
append (ISO-8601 timestamps compare lexicographically). -/
def timestampMonotoneInvariant
    (steps : List (LoggedEvent × String × String)) : Prop :=
  ∀ k ta ev te, lastAssignedBefore steps k = some ta →
    (persistedLog steps)[k]? = some ev → ev.timestamp = some te → ta ≤ te

/-- The events the `resolve_turn` loop builds for a list of outcomes,
consuming the (uuid, timestamp) supply exactly as `resolveLoop` does. -/
def mkEvents (req : ResolveTurnRequest) :
    List EventInput → List (String × String) → List LoggedEvent
  | [], _ => []
  | o :: os, idts =>
      mkTurnEvent req o (idts.headD ("", "")).1 (idts.headD ("", "")).2 ::
        mkEvents req os idts.tail

/-! ### Generic helper lemmas -/

theorem foldl_skipNone {σ : Type} (f : σ → LoggedEvent → σ) :
    ∀ (raw : List RawLine) (init : σ),
      raw.foldl (fun acc line =>
        match line with
        | none => acc
        | some e => f acc e) init
      = (raw.filterMap id).foldl f init := by
  intro raw
  induction raw with
  | nil => intro init; rfl
  | cons line t ih =>
      intro init
      cases line with
      | none => simpa using ih init
      | some e => simpa using ih (f init e)

theorem foldl_flatten {α β σ : Type} (g : α → List β) (f : σ → β → σ) :
    ∀ (l : List α) (init : σ),
      l.foldl (fun acc a => (g a).foldl f acc) init
      = (l.flatMap g).foldl f init := by
  intro l
  induction l with
  | nil => intro init; rfl
  | cons a t ih =>
      intro init
      simp only [List.foldl_cons, List.flatMap_cons, List.foldl_append]
      exact ih ((g a).foldl f init)

theorem dictGet_dictSet {β : Type} :
    ∀ (t : List (String × β)) (k : String) (v : β) (c : String),
      dictGet (dictSet t k v) c = if c = k then some v else dictGet t c := by
  intro t
  induction t with
  | nil =>
      intro k v c
      simp only [dictSet, dictGet, beq_iff_eq]
      by_cases h : c = k
      · subst h; simp
      · simp [h, Ne.symm h]
  | cons p t ih =>
      intro k v c
      by_cases hpk : p.1 = k
      · simp only [dictSet, hpk, beq_self_eq_true, if_true]
        by_cases hck : c = k
        · subst hck; simp [dictGet, hpk]
        · simp [dictGet, hpk, hck, Ne.symm hck]
      · simp only [dictSet, beq_iff_eq, hpk, if_false]
        by_cases hpc : p.1 = c
        · have hck : ¬ c = k := fun h => hpk (hpc.trans h)
          simp [dictGet, hpc, hck]
        · simp [dictGet, hpc, ih k v c]

/-! ### Lemmas about the balances replay -/

theorem balances_totals_flat (ownerType ownerId : String)
    (rawLog : List RawLine) :
    rawLog.foldl (fun totals line =>
      match line with
      | none => totals
      | some entry => balanceFold ownerType ownerId totals entry) []
    = (flatMoneyDeltas rawLog).foldl (moneyStep ownerType ownerId) [] := by
  rw [foldl_skipNone (balanceFold ownerType ownerId)]
  unfold flatMoneyDeltas
  exact Eq.trans
    (foldl_flatten (fun e => e.outcomes)
      (fun totals o => o.moneyDeltas.foldl (moneyStep ownerType ownerId) totals)
      (rawLog.filterMap id) [])
    (foldl_flatten (fun o => o.moneyDeltas) (moneyStep ownerType ownerId)
      ((rawLog.filterMap id).flatMap (fun e => e.outcomes)) [])

theorem dictGet_moneyFold (ownerType ownerId c : String) :
    ∀ (l : List MoneyDelta) (t : List (String × ℚ)),
      dictGet (l.foldl (moneyStep ownerType ownerId) t) c
      = if (selectMoney ownerType ownerId c l).isEmpty then dictGet t c
        else some ((dictGet t c).getD 0 + (selectMoney ownerType ownerId c l).sum) := by
  intro l
  induction l with
  | nil => intro t; simp [selectMoney]
  | cons md l ih =>
      intro t
      by_cases hown : md.ownerType = ownerType ∧ md.ownerId = ownerId
      · by_cases hcur : md.currency = c
        · have hsel : selectMoney ownerType ownerId c (md :: l)
              = md.amount :: selectMoney ownerType ownerId c l := by
            simp [selectMoney, hown.1, hown.2, hcur]
          have hstep : dictGet (moneyStep ownerType ownerId t md) c
              = some ((dictGet t c).getD 0 + md.amount) := by
            simp only [moneyStep, hown, and_self, if_true, hcur]
            rw [dictGet_dictSet]
            simp [hcur]
          simp only [List.foldl_cons, ih, hstep, hsel]
          by_cases hemp : (selectMoney ownerType ownerId c l).isEmpty
          · simp only [hemp, if_true, List.isEmpty_cons, if_false]
            rw [List.isEmpty_iff] at hemp
            simp [hemp]
          · simp [hemp, add_assoc]
        · have hsel : selectMoney ownerType ownerId c (md :: l)
              = selectMoney ownerType ownerId c l := by
            simp [selectMoney, hcur]
          have hstep : dictGet (moneyStep ownerType ownerId t md) c
              = dictGet t c := by
            simp only [moneyStep, hown, and_self, if_true]
            rw [dictGet_dictSet]
            simp [Ne.symm hcur]
          simp only [List.foldl_cons, ih, hstep, hsel]
      · have hsel : selectMoney ownerType ownerId c (md :: l)
            = selectMoney ownerType ownerId c l := by
          rcases not_and_or.mp hown with h | h <;> simp [selectMoney, h]
        have hstep : moneyStep ownerType ownerId t md = t := by
          simp [moneyStep, hown]
        simp only [List.foldl_cons, ih, hstep, hsel]

theorem find?_balances_map (c : String) :
    ∀ totals : List (String × ℚ),
      (totals.map (fun p => Balance.mk p.1 p.2)).find? (fun b => b.currency == c)
      = (dictGet totals c).map (fun a => Balance.mk c a) := by
  intro totals
  induction totals with
  | nil => rfl
  | cons p t ih =>
      by_cases h : p.1 = c
      · subst h; simp [dictGet]
      · simp [dictGet, h, ih]

/-! ### Claim C1 -/

/-- Outcome carrying one MoneyDelta for (player, "p1", "USD"). -/
def c1outcome (amt : ℚ) : EventInput :=
  { actor := { role := "gm" }, type := "money", summary := "money change"
    moneyDeltas :=
      [{ ownerType := "player", ownerId := "p1", currency := "USD"
         amount := amt }] }

/-- Log of the C1 scenario: MoneyDeltas of +50 and then -20 for
(player, "p1", "USD"). -/
def c1log : List RawLine :=
  [some { summary := "gain", outcomes := [c1outcome 50] },
   some { summary := "spend", outcomes := [c1outcome (-20)] }]

/-- C1: for every event log, the balances projection for a key
(ownerType, ownerId, currency) equals the running sum, in log order, of all
MoneyDelta amounts matching that key — later deltas only accumulate, never
overwrite — and in particular appending MoneyDeltas of +50 and -20 for
(player, "p1", "USD") yields a balance of 30 for that key. -/
theorem C1_balances_running_sum :
    (∀ (rawLog : List RawLine) (ownerType ownerId c : String),
      (get_balances rawLog ownerType ownerId none).find?
          (fun b => b.currency == c)
        = if (matchingAmounts rawLog ownerType ownerId c).isEmpty then none
          else some (Balance.mk c (matchingAmounts rawLog ownerType ownerId c).sum))
    ∧ get_balances c1log "player" "p1" none = [Balance.mk "USD" 30] := by
  constructor
  · intro rawLog ownerType ownerId c
    simp only [get_balances, pyTruthy, Bool.false_eq_true, if_false]
    rw [balances_totals_flat ownerType ownerId rawLog, find?_balances_map c,
      dictGet_moneyFold ownerType ownerId c (flatMoneyDeltas rawLog) []]
    unfold matchingAmounts
    by_cases h : (selectMoney ownerType ownerId c (flatMoneyDeltas rawLog)).isEmpty
    · simp [h, dictGet]
    · simp [h, dictGet]
  · show get_balances c1log "player" "p1" none = [Balance.mk "USD" 30]
    simp only [get_balances, c1log, c1outcome, balanceFold, moneyStep, dictSet,
      dictGet, pyTruthy, List.foldl_cons, List.foldl_nil, Bool.false_eq_true,
      if_false]
    norm_num

/-! ### Lemmas about the inventory replay -/

/-- Every stored item is keyed by its own name. -/
def WellKeyed (stock : List (String × Item)) : Prop :=
  ∀ p ∈ stock, p.2.name = p.1

/-- The keys of the stock are pairwise distinct. -/
def KeysNodup (stock : List (String × Item)) : Prop :=
  (stock.map Prod.fst).Nodup

theorem dictGet_name : ∀ {stock : List (String × Item)}, WellKeyed stock →
    ∀ {k : String} {v : Item}, dictGet stock k = some v → v.name = k := by
  intro stock
  induction stock with
  | nil => intro _ k v h; simp [dictGet] at h
  | cons p t ih =>
      intro hW k v h
      simp only [dictGet, beq_iff_eq] at h
      by_cases hpk : p.1 = k
      · rw [if_pos hpk] at h
        have hv : v = p.2 := (Option.some.injEq _ _ ▸ h).symm
        subst hv
        exact (hW p (List.mem_cons_self p t)).trans hpk
      · rw [if_neg hpk] at h
        exact ih (fun q hq => hW q (List.mem_cons_of_mem p hq)) h

theorem wellKeyed_dictSet : ∀ {stock : List (String × Item)} {k : String}
    {v : Item}, WellKeyed stock → v.name = k → WellKeyed (dictSet stock k v) := by
  intro stock
  induction stock with
  | nil =>
      intro k v _ hv
      intro q hq
      simp only [dictSet, List.mem_singleton] at hq
      subst hq; exact hv
  | cons p t ih =>
      intro k v hW hv q hq
      simp only [dictSet, beq_iff_eq] at hq
      by_cases hpk : p.1 = k
      · rw [if_pos hpk] at hq
        rcases List.mem_cons.mp hq with h | h
        · subst h; exact hv.trans hpk.symm
        · exact hW _ (List.mem_cons_of_mem p h)
      · rw [if_neg hpk] at hq
        rcases List.mem_cons.mp hq with h | h
        · rw [h]; exact hW p (List.mem_cons_self p t)
        · exact ih (fun r hr => hW r (List.mem_cons_of_mem p hr)) hv _ h

theorem mem_keys_dictSet : ∀ {stock : List (String × Item)} {k : String}
    {v : Item} {x : String}, x ∈ (dictSet stock k v).map Prod.fst →
    x ∈ stock.map Prod.fst ∨ x = k := by
  intro stock
  induction stock with
  | nil =>
      intro k v x hx
      simp only [dictSet, List.map_cons, List.map_nil, List.mem_singleton] at hx
      exact Or.inr hx
  | cons p t ih =>
      intro k v x hx
      simp only [dictSet, beq_iff_eq] at hx
      by_cases hpk : p.1 = k
      · rw [if_pos hpk] at hx
        simp only [List.map_cons, List.mem_cons] at hx
        rcases hx with h | h
        · exact Or.inl (by simp [h])
        · exact Or.inl (by
            simp only [List.map_cons]
            exact List.mem_cons_of_mem _ h)
      · rw [if_neg hpk] at hx
        simp only [List.map_cons, List.mem_cons] at hx
        rcases hx with h | h
        · exact Or.inl (by simp [h])
        · rcases ih h with h' | h'
          · exact Or.inl (by
              simp only [List.map_cons]
              exact List.mem_cons_of_mem _ h')
          · exact Or.inr h'

theorem keysNodup_dictSet : ∀ {stock : List (String × Item)} {k : String}
    {v : Item}, KeysNodup stock → KeysNodup (dictSet stock k v) := by
  intro stock
  induction stock with
  | nil => intro k v _; simp [KeysNodup, dictSet]
  | cons p t ih =>
      intro k v hN
      have hN' : (t.map Prod.fst).Nodup ∧ p.1 ∉ t.map Prod.fst := by
        have := hN
        simp only [KeysNodup, List.map_cons, List.nodup_cons] at this
        exact ⟨this.2, this.1⟩
      simp only [KeysNodup, dictSet, beq_iff_eq]
      by_cases hpk : p.1 = k
      · rw [if_pos hpk]
        simp only [List.map_cons, List.nodup_cons]
        exact ⟨hN'.2, hN'.1⟩
      · rw [if_neg hpk]
        simp only [List.map_cons, List.nodup_cons]
        constructor
        · intro hmem
          rcases mem_keys_dictSet hmem with h | h
          · exact hN'.2 h
          · exact hpk h
        · exact ih hN'.1

theorem wellKeyed_applyInventoryDelta (ownerType ownerId : String)
    {stock : List (String × Item)} (hW : WellKeyed stock)
    (d : InventoryDelta) :
    WellKeyed (applyInventoryDelta ownerType ownerId stock d) := by
  unfold applyInventoryDelta
  by_cases hown : d.ownerType = ownerType ∧ d.ownerId = ownerId
  · rw [if_pos hown]
    by_cases hempty : d.item.name = ""
    · rw [if_pos hempty]; exact hW
    · rw [if_neg hempty]
      apply wellKeyed_dictSet hW
      set base : Item :=
        match dictGet stock d.item.name with
        | some it => it
        | none =>
            { name := d.item.name, amount := 0, value := d.item.value
              props := d.item.props } with hbase
      have hbasename : base.name = d.item.name := by
        rw [hbase]
        cases hdg : dictGet stock d.item.name with
        | some it => simpa [hdg] using dictGet_name hW hdg
        | none => simp [hdg]
      by_cases h1 : d.op = "add"
      · simp [h1, hbasename]
      · by_cases h2 : d.op = "remove"
        · simp [h1, h2, hbasename]
        · by_cases h3 : d.op = "set"
          · simp [h1, h2, h3, hbasename]
          · simp [h1, h2, h3, hbasename]
  · rw [if_neg hown]; exact hW

theorem keysNodup_applyInventoryDelta (ownerType ownerId : String)
    {stock : List (String × Item)} (hN : KeysNodup stock)
    (d : InventoryDelta) :
    KeysNodup (applyInventoryDelta ownerType ownerId stock d) := by
  unfold applyInventoryDelta
  by_cases hown : d.ownerType = ownerType ∧ d.ownerId = ownerId
  · rw [if_pos hown]
    by_cases hempty : d.item.name = ""
    · rw [if_pos hempty]; exact hN
    · rw [if_neg hempty]; exact keysNodup_dictSet hN
  · rw [if_neg hown]; exact hN

theorem wellKeyed_invFold (ownerType ownerId : String) :
    ∀ (l : List InventoryDelta) (stock : List (String × Item)),
      WellKeyed stock →
      WellKeyed (l.foldl (applyInventoryDelta ownerType ownerId) stock) := by
  intro l
  induction l with
  | nil => intro stock hW; exact hW
  | cons d t ih =>
      intro stock hW
      exact ih _ (wellKeyed_applyInventoryDelta ownerType ownerId hW d)

theorem keysNodup_invFold (ownerType ownerId : String) :
    ∀ (l : List InventoryDelta) (stock : List (String × Item)),
      KeysNodup stock →
      KeysNodup (l.foldl (applyInventoryDelta ownerType ownerId) stock) := by
  intro l
  induction l with
  | nil => intro stock hN; exact hN
  | cons d t ih =>
      intro stock hN
      exact ih _ (keysNodup_applyInventoryDelta ownerType ownerId hN d)

theorem inventory_stock_flat (ownerType ownerId : String)
    (rawLog : List RawLine) :
    rawLog.foldl (fun stock line =>
      match line with
      | none => stock
      | some entry => inventoryFold ownerType ownerId stock entry) []
    = (flatInventoryDeltas rawLog).foldl
        (applyInventoryDelta ownerType ownerId) [] := by
  rw [foldl_skipNone (inventoryFold ownerType ownerId)]
  unfold flatInventoryDeltas
  exact Eq.trans
    (foldl_flatten (fun e => e.outcomes)
      (fun stock o =>
        o.inventoryDeltas.foldl (applyInventoryDelta ownerType ownerId) stock)
      (rawLog.filterMap id) [])
    (foldl_flatten (fun o => o.inventoryDeltas)
      (applyInventoryDelta ownerType ownerId)
      ((rawLog.filterMap id).flatMap (fun e => e.outcomes)) [])

theorem dictGet_invFold (ownerType ownerId name : String) (hname : name ≠ "") :
    ∀ (l : List InventoryDelta) (stock : List (String × Item)),
      (dictGet (l.foldl (applyInventoryDelta ownerType ownerId) stock) name).map
          (fun it => it.amount)
      = if (selectInv ownerType ownerId name l).isEmpty then
          (dictGet stock name).map (fun it => it.amount)
        else some ((selectInv ownerType ownerId name l).foldl invStep
            (((dictGet stock name).map (fun it => it.amount)).getD 0)) := by
  intro l
  induction l with
  | nil => intro stock; simp [selectInv]
  | cons d l ih =>
      intro stock
      by_cases hown : d.ownerType = ownerType ∧ d.ownerId = ownerId
      · by_cases hnm : d.item.name = name
        · have hne : ¬ d.item.name = "" := by rw [hnm]; exact hname
          have hsel : selectInv ownerType ownerId name (d :: l)
              = d :: selectInv ownerType ownerId name l := by
            simp [selectInv, hown.1, hown.2, hnm]
          have hstep : dictGet (applyInventoryDelta ownerType ownerId stock d) name
              = some { (match dictGet stock name with
                        | some it => it
                        | none =>
                            { name := name, amount := 0, value := d.item.value
                              props := d.item.props } : Item) with
                       amount := invStep
                        (((dictGet stock name).map (fun it => it.amount)).getD 0) d } := by
            unfold applyInventoryDelta
            rw [if_pos hown, if_neg hne, hnm, dictGet_dictSet]
            rw [if_pos rfl]
            cases hdg : dictGet stock name with
            | some it =>
                simp only [hdg, Option.map_some, Option.getD_some, invStep]
                by_cases h1 : d.op = "add"
                · simp [h1]
                · by_cases h2 : d.op = "remove"
                  · simp [h1, h2]
                  · by_cases h3 : d.op = "set"
                    · simp [h1, h2, h3]
                    · simp [h1, h2, h3]
            | none =>
                simp only [hdg, Option.map_none, Option.getD_none, invStep]
                by_cases h1 : d.op = "add"
                · simp [h1]
                · by_cases h2 : d.op = "remove"
                  · simp [h1, h2]
                  · by_cases h3 : d.op = "set"
                    · simp [h1, h2, h3]
                    · simp [h1, h2, h3]
          simp only [List.foldl_cons, ih, hstep, hsel, Option.map_some,
            Option.getD_some]
          by_cases hemp : (selectInv ownerType ownerId name l).isEmpty
          · rw [List.isEmpty_iff] at hemp
            simp [hemp]
          · simp [hemp]
        · have hsel : selectInv ownerType ownerId name (d :: l)
              = selectInv ownerType ownerId name l := by
            simp [selectInv, hnm]
          have hstep : dictGet (applyInventoryDelta ownerType ownerId stock d) name
              = dictGet stock name := by
            unfold applyInventoryDelta
            rw [if_pos hown]
            by_cases hempty : d.item.name = ""
            · rw [if_pos hempty]
            · rw [if_neg hempty, dictGet_dictSet, if_neg (Ne.symm hnm)]
          simp only [List.foldl_cons, ih, hstep, hsel]
      · have hsel : selectInv ownerType ownerId name (d :: l)
            = selectInv ownerType ownerId name l := by
          rcases not_and_or.mp hown with h | h <;> simp [selectInv, h]
        have hstep : applyInventoryDelta ownerType ownerId stock d = stock := by
          unfold applyInventoryDelta
          rw [if_neg hown]
        simp only [List.foldl_cons, ih, hstep, hsel]

theorem find?_filter_of_no_name (name : String) :
    ∀ (t : List (String × Item)), (∀ p ∈ t, p.2.name ≠ name) →
      ((t.map (fun p => p.2)).filter (fun i => decide (i.amount ≠ 0))).find?
          (fun i => i.name == name) = none := by
  intro t
  induction t with
  | nil => intro _; rfl
  | cons p t ih =>
      intro h
      have hp : p.2.name ≠ name := h p (List.mem_cons_self p t)
      have ht : ∀ q ∈ t, q.2.name ≠ name :=
        fun q hq => h q (List.mem_cons_of_mem p hq)
      have hhead : (p.2.name == name) = false := by simp [hp]
      simp only [List.map_cons, List.filter_cons]
      by_cases hz : p.2.amount = 0
      · have hdec : (decide (p.2.amount ≠ 0)) = false := by simp [hz]
        simp only [hdec, Bool.false_eq_true, if_false]
        exact ih ht
      · have hdec : (decide (p.2.amount ≠ 0)) = true := by simp [hz]
        simp only [hdec, if_true]
        rw [List.find?_cons_of_neg _ (by simp [hhead])]
        exact ih ht

theorem find?_snapshot (name : String) :
    ∀ (stock : List (String × Item)), WellKeyed stock → KeysNodup stock →
      ((stock.map (fun p => p.2)).filter (fun i => decide (i.amount ≠ 0))).find?
          (fun i => i.name == name)
      = (dictGet stock name).bind
          (fun it => if it.amount = 0 then none else some it) := by
  intro stock
  induction stock with
  | nil => intro _ _; rfl
  | cons p t ih =>
      intro hW hN
      have hpname : p.2.name = p.1 := hW p (List.mem_cons_self p t)
      have hWt : WellKeyed t := fun q hq => hW q (List.mem_cons_of_mem p hq)
      have hNt : KeysNodup t ∧ p.1 ∉ t.map Prod.fst := by
        have := hN
        simp only [KeysNodup, List.map_cons, List.nodup_cons] at this
        exact ⟨this.2, this.1⟩
      simp only [List.map_cons, List.filter_cons, dictGet, beq_iff_eq]
      by_cases hpk : p.1 = name
      · rw [if_pos hpk]
        by_cases hz : p.2.amount = 0
        · have hnone : ∀ q ∈ t, q.2.name ≠ name := by
            intro q hq hqname
            apply hNt.2
            have hq1 : q.1 = p.1 := by rw [← hWt q hq, hqname, hpk]
            rw [← hq1]
            exact List.mem_map_of_mem Prod.fst hq
          have hdec : (decide (p.2.amount ≠ 0)) = false := by simp [hz]
          simp only [hdec, Bool.false_eq_true, if_false]
          rw [find?_filter_of_no_name name t hnone]
          simp [hz]
        · have hdec : (decide (p.2.amount ≠ 0)) = true := by simp [hz]
          simp only [hdec, if_true]
          rw [List.find?_cons_of_pos _ (by simp [hpname, hpk])]
          simp [hz]
      · rw [if_neg hpk]
        have hhead : (p.2.name == name) = false := by
          simp [hpname, hpk]
        by_cases hz : p.2.amount = 0
        · have hdec : (decide (p.2.amount ≠ 0)) = false := by simp [hz]
          simp only [hdec, Bool.false_eq_true, if_false]
          exact ih hWt hNt.1
        · have hdec : (decide (p.2.amount ≠ 0)) = true := by simp [hz]
          simp only [hdec, if_true]
          rw [List.find?_cons_of_neg _ (by simp [hhead])]
          exact ih hWt hNt.1

/-! ### Claim C2 -/

/-- Outcome carrying one InventoryDelta of one knife for (player, "p1"). -/
def c2outcome (opName : String) : EventInput :=
  { actor := { role := "gm" }, type := "inventory", summary := "knife change"
    inventoryDeltas :=
      [{ ownerType := "player", ownerId := "p1", op := opName
         item := { name := "knife", amount := 1 } }] }

/-- Log of the C2 scenario: `add knife amount=1` then `remove knife
amount=1` for (player, "p1"). -/
def c2log : List RawLine :=
  [some { summary := "pick up", outcomes := [c2outcome "add"] },
   some { summary := "drop", outcomes := [c2outcome "remove"] }]

/-- C2: the inventory projection folds the matching InventoryDeltas in log
order per item name — `add` increments, `remove` decrements, `set` replaces,
with no clamping or rejection of negative quantities — and the snapshot
contains the item exactly when the folded quantity is non-zero (zero-quantity
items are excluded); in particular `add knife 1` then `remove knife 1`
leaves no "knife" in the snapshot. -/
theorem C2_inventory_running_quantity :
    (∀ (rawLog : List RawLine) (ownerType ownerId name : String), name ≠ "" →
      ((get_inventory_snapshot rawLog ownerType ownerId).find?
          (fun i => i.name == name)).map (fun i => i.amount)
        = if inventoryAmount rawLog ownerType ownerId name = 0 then none
          else some (inventoryAmount rawLog ownerType ownerId name))
    ∧ (get_inventory_snapshot c2log "player" "p1").find?
        (fun i => i.name == "knife") = none := by
  have hgen : ∀ (rawLog : List RawLine) (ownerType ownerId name : String),
      name ≠ "" →
      ((get_inventory_snapshot rawLog ownerType ownerId).find?
          (fun i => i.name == name)).map (fun i => i.amount)
        = if inventoryAmount rawLog ownerType ownerId name = 0 then none
          else some (inventoryAmount rawLog ownerType ownerId name) := by
    intro rawLog ot oid name hname
    simp only [get_inventory_snapshot]
    rw [inventory_stock_flat ot oid rawLog]
    rw [find?_snapshot name _
      (wellKeyed_invFold ot oid _ [] (fun p hp => absurd hp (List.not_mem_nil p)))
      (keysNodup_invFold ot oid _ [] (by simp [KeysNodup]))]
    have hfold := dictGet_invFold ot oid name hname (flatInventoryDeltas rawLog) []
    simp only [dictGet, Option.map_none, Option.getD_none] at hfold
    have hinv : inventoryAmount rawLog ot oid name
        = (selectInv ot oid name (flatInventoryDeltas rawLog)).foldl invStep 0 := rfl
    cases hdg : dictGet
        ((flatInventoryDeltas rawLog).foldl (applyInventoryDelta ot oid) [])
        name with
    | none =>
        rw [hdg] at hfold
        by_cases hemp : (selectInv ot oid name (flatInventoryDeltas rawLog)).isEmpty
        · have hsel := List.isEmpty_iff.mp hemp
          rw [hinv, hsel]
          simp
        · rw [if_neg hemp] at hfold
          exact absurd hfold.symm (by simp)
    | some it =>
        rw [hdg] at hfold
        by_cases hemp : (selectInv ot oid name (flatInventoryDeltas rawLog)).isEmpty
        · rw [if_pos hemp] at hfold
          exact absurd hfold (by simp)
        · rw [if_neg hemp] at hfold
          have hamt : it.amount
              = (selectInv ot oid name (flatInventoryDeltas rawLog)).foldl invStep 0 := by
            simpa using hfold
          rw [hinv, ← hamt]
          by_cases hz : it.amount = 0
          · simp [hz]
          · simp [hz]
  refine ⟨hgen, ?_⟩
  have h := hgen c2log "player" "p1" "knife" (by decide)
  have hz : inventoryAmount c2log "player" "p1" "knife" = 0 := by
    simp only [inventoryAmount, matchingInventoryDeltas, selectInv,
      flatInventoryDeltas, c2log, c2outcome, List.filterMap_cons, id_eq,
      List.filterMap_nil, List.flatMap_cons, List.flatMap_nil,
      List.cons_append, List.nil_append, List.append_nil, List.filter_cons,
      List.filter_nil, List.foldl_cons, List.foldl_nil]
    norm_num [invStep]
    decide
  rw [hz] at h
  simp only [if_pos rfl] at h
  exact Option.map_eq_none'.mp h

/-- Witness for C2: the general statement applied to the knife scenario. -/
theorem C2_inventory_running_quantity_witness :
    ("knife" : String) ≠ "" ∧
    ((get_inventory_snapshot c2log "player" "p1").find?
        (fun i => i.name == "knife")).map (fun i => i.amount)
      = if inventoryAmount c2log "player" "p1" "knife" = 0 then none
        else some (inventoryAmount c2log "player" "p1" "knife") :=
  ⟨by decide, C2_inventory_running_quantity.1 c2log "player" "p1" "knife" (by decide)⟩

/-! ### Claim C3 -/

/-- Stored player record of the C3 counterexample. -/
def c3stored : Player :=
  { playerId := "p1", name := some "Alice", location := some "Bar"
    stats := { money := 10 }, wallets := [{ currency := "USD", amount := 5 }] }

/-- Incoming payload of the C3 counterexample: the location is present but
empty. -/
def c3incoming : UpdatePlayerRequest := { location := some "" }

/-- C3 counterexample: merging a stored player whose location is "Bar" with a
payload whose location is present but empty overwrites the location with the
empty string, while the claimed rule ("incoming only when present and
non-empty, stored otherwise") would keep "Bar". -/
theorem C3_counterexample_empty_overwrites :
    (update_player (some c3stored) "p1" c3incoming).location
      ≠ specMergeField c3stored.location c3incoming.location ∧
    (update_player (some c3stored) "p1" c3incoming).location = some "" ∧
    specMergeField c3stored.location c3incoming.location = some "Bar" := by
  refine ⟨?_, ?_, ?_⟩ <;> decide

/-- C3 amended: the merge implemented by `update_player` is field-wise over
{name, location, stats, wallets}; each field takes the incoming value
whenever it is present (non-null) — even when it is empty — and keeps the
stored value otherwise. Merging with an all-absent payload returns the
stored player unchanged, and a payload carrying only a location changes only
the location. -/
theorem C3_merge_fieldwise :
    ∀ (H : Player) (pid : String) (payload : UpdatePlayerRequest),
      (update_player (some H) pid payload).playerId = H.playerId ∧
      (update_player (some H) pid payload).name
        = (match payload.name with
           | some n => some n
           | none => H.name) ∧
      (update_player (some H) pid payload).location
        = (match payload.location with
           | some l => some l
           | none => H.location) ∧
      (update_player (some H) pid payload).stats = payload.stats.getD H.stats ∧
      (update_player (some H) pid payload).wallets
        = payload.wallets.getD H.wallets ∧
      update_player (some H) pid {} = H ∧
      (∀ l : String,
        update_player (some H) pid { location := some l }
          = { H with location := some l }) := by
  intro H pid payload
  rcases payload with ⟨pn, pl, ps, pw⟩
  refine ⟨?_, ?_, ?_, ?_, ?_, ?_, ?_⟩ <;>
    cases pn <;> cases pl <;> cases ps <;> cases pw <;>
      simp [update_player]

/-! ### Claims C4 and C5 -/

/-- Precheck request of the C4 counterexample, with the summary the claim
says must trigger the autonomy violation. -/
def c4payload : PrecheckRequest :=
  { latestProposal := some { summary := some "You say you forgive him" } }

/-- C4 counterexample: the proposal summary "You say you forgive him" does
not trigger any violation — the authority verdict stays true and the
violation list stays empty, where the claim requires a false verdict and a
reported violation. -/
theorem C4_counterexample_no_autonomy_check :
    (gpt_precheck c4payload).gmAuthorityRespected = true ∧
    (gpt_precheck c4payload).errors = [] := by
  exact ⟨rfl, rfl⟩

/-- C4 amended: the precheck performs no phrase matching at all — for every
request, the authority verdict is true and no violation is reported, so
neither "You say you forgive him" nor "Marcus says he forgives her" triggers
an autonomy violation. -/
theorem C4_precheck_authority_constant :
    ∀ payload : PrecheckRequest,
      (gpt_precheck payload).gmAuthorityRespected = true ∧
      (gpt_precheck payload).errors = [] :=
  fun _ => ⟨rfl, rfl⟩

/-- Precheck request of the C5 counterexample, whose involved-NPC-id list
contains a duplicate id. -/
def c5payload : PrecheckRequest :=
  { latestProposal := some
      { summary := some "Two guards act in lockstep"
        data := some { involvedNpcIds := ["n1", "n1"] } } }

/-- C5 counterexample: the duplicate involved-NPC-id list ["n1", "n1"] does
not trigger the actor-individuality violation — the individuality verdict
stays true and the violation list stays empty, where the claim requires a
false verdict and an appended violation exactly on duplicates. -/
theorem C5_counterexample_no_duplicate_check :
    ¬ (["n1", "n1"] : List String).Nodup ∧
    (gpt_precheck c5payload).npcIndividualityMaintained = true ∧
    (gpt_precheck c5payload).errors = [] := by
  refine ⟨by decide, rfl, rfl⟩

/-- C5 amended: the precheck never inspects the involved-NPC-id list — for
every request, the NPC-individuality verdict is true and no violation is
reported, for duplicate and duplicate-free id lists alike. -/
theorem C5_precheck_individuality_constant :
    ∀ payload : PrecheckRequest,
      (gpt_precheck payload).npcIndividualityMaintained = true ∧
      (gpt_precheck payload).errors = [] :=
  fun _ => ⟨rfl, rfl⟩

/-! ### Claims C6 and C7 -/

theorem resolveLoop_spec (req : ResolveTurnRequest) :
    ∀ (os : List EventInput) (idts : List (String × String))
      (st : EventStoreState),
      resolveLoop req st os idts
      = if os.length ≤ st.capacity then
          ({ log := st.log ++ mkEvents req os idts
             capacity := st.capacity - os.length }, true)
        else
          ({ log := st.log ++ mkEvents req (os.take st.capacity) idts
             capacity := 0 }, false) := by
  intro os
  induction os with
  | nil =>
      intro idts st
      simp [resolveLoop, mkEvents]
  | cons o os ih =>
      intro idts st
      cases hc : st.capacity with
      | zero =>
          rw [if_neg (by simp [hc])]
          simp only [resolveLoop, appendJsonl, hc, List.take_zero, mkEvents,
            List.append_nil]
          rw [show ({ log := st.log, capacity := 0 } : EventStoreState) = st by
            rw [← hc]]
      | succ c =>
          have happ : appendJsonl st
              (mkTurnEvent req o (idts.headD ("", "")).1 (idts.headD ("", "")).2)
              = Except.ok
                  ⟨st.log ++
                    [mkTurnEvent req o (idts.headD ("", "")).1 (idts.headD ("", "")).2],
                   c⟩ := by
            simp [appendJsonl, hc]
          simp only [resolveLoop, happ, ih]
          by_cases hlen : os.length ≤ c
          · rw [if_pos hlen, if_pos (by simp [hc]; omega)]
            simp [mkEvents, hc, List.append_assoc, Nat.succ_sub_succ]
          · rw [if_neg hlen, if_neg (by simp [hc]; omega)]
            simp [mkEvents, hc, List.append_assoc, List.take_succ_cons]

theorem mkEvents_map_outcomes (req : ResolveTurnRequest) :
    ∀ (os : List EventInput) (idts : List (String × String)),
      (mkEvents req os idts).map (fun e => e.outcomes)
        = os.map (fun o => [o]) := by
  intro os
  induction os with
  | nil => intro idts; rfl
  | cons o os ih => intro idts; simp [mkEvents, mkTurnEvent, ih]

/-- Outcome used by the C6 and C7 scenarios. -/
def turnOutcome (s : String) : EventInput :=
  { actor := { role := "gm" }, type := "narrative", summary := s }

/-- Two-outcome proposal of the C6 counterexample. -/
def c6req : ResolveTurnRequest :=
  { playerId := "p1", outcomes := [turnOutcome "first", turnOutcome "second"] }

/-- Store of the C6 counterexample: room for exactly one append. -/
def c6store : EventStoreState := { log := [], capacity := 1 }

/-- Fresh (uuid, timestamp) supply of the C6 counterexample. -/
def c6idts : List (String × String) := [("id1", "t1"), ("id2", "t2")]

/-- C6 counterexample: with capacity for one append, resolving a two-outcome
proposal fails — yet the first outcome's event stays persisted while the
second is dropped, so a partial set of one proposal's outcomes is
persisted. -/
theorem C6_counterexample_partial_persist :
    (resolve_turn c6store c6req c6idts).2 = Except.error () ∧
    (resolve_turn c6store c6req c6idts).1.log
      = [mkTurnEvent c6req (turnOutcome "first") "id1" "t1"] := by
  exact ⟨rfl, rfl⟩

/-- C6 amended: resolution is not atomic — when the durable log fails after
`c` of the proposal's `n > c` outcomes, the turn fails but the events of the
first `c` outcomes remain persisted and the rest are dropped. -/
theorem C6_resolve_not_atomic :
    ∀ (st : EventStoreState) (req : ResolveTurnRequest)
      (idts : List (String × String)),
      st.capacity < req.outcomes.length →
      (resolve_turn st req idts).2 = Except.error () ∧
      (resolve_turn st req idts).1.log
        = st.log ++ mkEvents req (req.outcomes.take st.capacity) idts := by
  intro st req idts h
  unfold resolve_turn
  rw [resolveLoop_spec req req.outcomes idts st, if_neg (by omega)]
  exact ⟨rfl, rfl⟩

/-- Witness for C6: the amended statement at the concrete capacity-1 store
and two-outcome proposal. -/
theorem C6_resolve_not_atomic_witness :
    c6store.capacity < c6req.outcomes.length ∧
    ((resolve_turn c6store c6req c6idts).2 = Except.error () ∧
      (resolve_turn c6store c6req c6idts).1.log
        = c6store.log ++ mkEvents c6req (c6req.outcomes.take c6store.capacity) c6idts) :=
  ⟨by decide, C6_resolve_not_atomic c6store c6req c6idts (by decide)⟩

/-- One-outcome proposal of the C7 counterexample. -/
def c7req : ResolveTurnRequest :=
  { playerId := "p1", outcomes := [turnOutcome "hello"] }

/-- Store of the C7 counterexample. -/
def c7store : EventStoreState := { log := [], capacity := 1 }

/-- C7 counterexample: two resolutions that append events with different ids
return identical results, so the turn result does not contain (or determine)
the list of appended event ids — it carries only a status and a count. -/
theorem C7_counterexample_result_lacks_ids :
    (resolve_turn c7store c7req [("a", "t")]).2
      = (resolve_turn c7store c7req [("b", "t")]).2 ∧
    (resolve_turn c7store c7req [("a", "t")]).1.log.map (fun e => e.eventId)
      ≠ (resolve_turn c7store c7req [("b", "t")]).1.log.map (fun e => e.eventId) := by
  exact ⟨rfl, by decide⟩

/-- C7 amended: with enough storage, `resolve_turn` appends exactly one event
per outcome of the proposal, in proposal order, but its result carries only
the status string and the number of appended events (`numEvents`), not the
ids of the appended events. -/
theorem C7_one_event_per_outcome :
    ∀ (st : EventStoreState) (req : ResolveTurnRequest)
      (idts : List (String × String)),
      req.outcomes.length ≤ st.capacity →
      (resolve_turn st req idts).2
        = Except.ok { status := "applied", numEvents := req.outcomes.length } ∧
      (resolve_turn st req idts).1.log = st.log ++ mkEvents req req.outcomes idts ∧
      (mkEvents req req.outcomes idts).map (fun e => e.outcomes)
        = req.outcomes.map (fun o => [o]) := by
  intro st req idts h
  unfold resolve_turn
  rw [resolveLoop_spec req req.outcomes idts st, if_pos h]
  exact ⟨rfl, rfl, mkEvents_map_outcomes req req.outcomes idts⟩

/-- Witness for C7: the amended statement at the concrete one-outcome
proposal. -/
theorem C7_one_event_per_outcome_witness :
    c7req.outcomes.length ≤ c7store.capacity ∧
    ((resolve_turn c7store c7req [("a", "t")]).2
        = Except.ok { status := "applied", numEvents := c7req.outcomes.length } ∧
      (resolve_turn c7store c7req [("a", "t")]).1.log
        = c7store.log ++ mkEvents c7req c7req.outcomes [("a", "t")] ∧
      (mkEvents c7req c7req.outcomes [("a", "t")]).map (fun e => e.outcomes)
        = c7req.outcomes.map (fun o => [o])) :=
  ⟨by decide, C7_one_event_per_outcome c7store c7req [("a", "t")] (by decide)⟩

/-! ### Claim C8 -/

/-- Append-step run of the C8 counterexample: the first incoming event has no
timestamp (so the store assigns the current time), the second supplies its
own, older timestamp. -/
def c8steps : List (LoggedEvent × String × String) :=
  [({ summary := "first" }, "id1", "2024-06-05T12:00:00Z"),
   ({ summary := "second", timestamp := some "2020-01-01T00:00:00Z" }, "id2",
    "2024-06-05T12:00:01Z")]

/-- C8 counterexample: `append_event_log` persists a client-supplied
timestamp unchecked, so the second persisted event's timestamp
("2020-01-01…") is smaller than the timestamp the store assigned just before
("2024-06-05…"), violating the claimed store invariant. -/
theorem C8_counterexample_timestamp_regresses :
    ¬ timestampMonotoneInvariant c8steps := by
  intro h
  have h3 := h 1 "2024-06-05T12:00:00Z"
    { eventId := some "id2", timestamp := some "2020-01-01T00:00:00Z"
      summary := "second" }
    "2020-01-01T00:00:00Z" (by decide) (by decide) (by decide)
  rw [String.le_iff_toList_le] at h3
  revert h3
  decide

/-- C8 amended: `append_event_log` assigns the fresh id exactly when the
incoming event has none and the current timestamp exactly when the incoming
event has none — supplied ids and timestamps are persisted unchanged — but
the store does not enforce any ordering against supplied timestamps, so a
persisted timestamp may be smaller than the previously assigned one. -/
theorem C8_append_assigns_iff_absent :
    ∀ (e : LoggedEvent) (freshId nowTs : String),
      (append_event_log e freshId nowTs).eventId
        = some (e.eventId.getD freshId) ∧
      (append_event_log e freshId nowTs).timestamp
        = some (e.timestamp.getD nowTs) ∧
      (append_event_log e freshId nowTs).summary = e.summary ∧
      (append_event_log e freshId nowTs).outcomes = e.outcomes := by
  intro e freshId nowTs
  cases he : e.eventId <;> cases ht : e.timestamp <;>
    simp [append_event_log, he, ht]

/-! ### Claim C9 -/

theorem foldl_moneyStep_id (ownerType ownerId : String) :
    ∀ (l : List MoneyDelta) (t : List (String × ℚ)),
      (∀ md ∈ l, ¬ (md.ownerType = ownerType ∧ md.ownerId = ownerId)) →
      l.foldl (moneyStep ownerType ownerId) t = t := by
  intro l
  induction l with
  | nil => intro t _; rfl
  | cons md l ih =>
      intro t h
      have hmd := h md (List.mem_cons_self md l)
      have hstep : moneyStep ownerType ownerId t md = t := by
        simp [moneyStep, hmd]
      rw [List.foldl_cons, hstep]
      exact ih t (fun d hd => h d (List.mem_cons_of_mem md hd))

theorem foldl_invDelta_id (ownerType ownerId : String) :
    ∀ (l : List InventoryDelta) (stock : List (String × Item)),
      (∀ d ∈ l, ¬ (d.ownerType = ownerType ∧ d.ownerId = ownerId)) →
      l.foldl (applyInventoryDelta ownerType ownerId) stock = stock := by
  intro l
  induction l with
  | nil => intro stock _; rfl
  | cons d l ih =>
      intro stock h
      have hd := h d (List.mem_cons_self d l)
      have hstep : applyInventoryDelta ownerType ownerId stock d = stock := by
        unfold applyInventoryDelta
        rw [if_neg hd]
      rw [List.foldl_cons, hstep]
      exact ih stock (fun d' hd' => h d' (List.mem_cons_of_mem d hd'))

/-- C9: replay never fails on empty or missing data — querying an empty
event log returns an empty sequence for every filter, and computing balances
or the inventory snapshot over a log with no deltas for the requested owner
(unknown owner or empty log) returns an empty result rather than an
error. -/
theorem C9_empty_inputs_total :
    (∀ (playerId sceneId : Option String) (limit : Int),
      get_event_log [] playerId sceneId limit = []) ∧
    (∀ (rawLog : List RawLine) (ownerType ownerId : String)
      (currency : Option String),
      (∀ md ∈ flatMoneyDeltas rawLog,
        ¬ (md.ownerType = ownerType ∧ md.ownerId = ownerId)) →
      get_balances rawLog ownerType ownerId currency = []) ∧
    (∀ (rawLog : List RawLine) (ownerType ownerId : String),
      (∀ d ∈ flatInventoryDeltas rawLog,
        ¬ (d.ownerType = ownerType ∧ d.ownerId = ownerId)) →
      get_inventory_snapshot rawLog ownerType ownerId = []) := by
  refine ⟨?_, ?_, ?_⟩
  · intro playerId sceneId limit
    simp [get_event_log, pySliceTo]
  · intro rawLog ownerType ownerId currency h
    simp only [get_balances]
    rw [balances_totals_flat ownerType ownerId rawLog,
      foldl_moneyStep_id ownerType ownerId (flatMoneyDeltas rawLog) [] h]
    cases currency with
    | none => rfl
    | some c => simp [pyTruthy]
  · intro rawLog ownerType ownerId h
    simp only [get_inventory_snapshot]
    rw [inventory_stock_flat ownerType ownerId rawLog,
      foldl_invDelta_id ownerType ownerId (flatInventoryDeltas rawLog) [] h]
    rfl

/-- Raw log of the C9 witness: its only deltas belong to (npc, "x"), not to
the queried owner (player, "p1"). -/
def c9raw : List RawLine :=
  [some { summary := "npc dealings"
          outcomes :=
            [{ actor := { role := "npc" }, type := "mixed", summary := "trade"
               moneyDeltas :=
                 [{ ownerType := "npc", ownerId := "x", currency := "USD"
                    amount := 5 }]
               inventoryDeltas :=
                 [{ ownerType := "npc", ownerId := "x", op := "add"
                    item := { name := "rope", amount := 2 } }] }] }]

/-- Witness for C9: an empty log queried with a filter, and balances and
inventory of an owner with no matching deltas. -/
theorem C9_empty_inputs_total_witness :
    get_event_log [] (some "p1") none 50 = [] ∧
    get_balances c9raw "player" "p1" none = [] ∧
    get_inventory_snapshot c9raw "player" "p1" = [] :=
  ⟨C9_empty_inputs_total.1 (some "p1") none 50,
   C9_empty_inputs_total.2.1 c9raw "player" "p1" none (by decide),
   C9_empty_inputs_total.2.2 c9raw "player" "p1" (by decide)⟩

/-! ### Claim C10 -/

theorem foldl_skipNone_wellFormed {σ : Type} (f : σ → LoggedEvent → σ)
    (raw : List RawLine) (init : σ) :
    raw.foldl (fun acc line =>
      match line with
      | none => acc
      | some e => f acc e) init
    = (wellFormedLines raw).foldl (fun acc line =>
        match line with
        | none => acc
        | some e => f acc e) init := by
  rw [foldl_skipNone f raw init, foldl_skipNone f (wellFormedLines raw) init]
  congr 1
  simp [wellFormedLines]

/-- C10: every replay of the event log — the event query, the balances
computation and the inventory computation — silently skips unparseable log
lines, so on every log its result equals its result on the subsequence of
well-formed lines. -/
theorem C10_malformed_lines_skipped :
    ∀ (rawLog : List RawLine) (playerId sceneId : Option String) (limit : Int)
      (ownerType ownerId : String) (currency : Option String),
      get_event_log rawLog playerId sceneId limit
        = get_event_log (wellFormedLines rawLog) playerId sceneId limit ∧
      get_balances rawLog ownerType ownerId currency
        = get_balances (wellFormedLines rawLog) ownerType ownerId currency ∧
      get_inventory_snapshot rawLog ownerType ownerId
        = get_inventory_snapshot (wellFormedLines rawLog) ownerType ownerId := by
  intro rawLog playerId sceneId limit ownerType ownerId currency
  refine ⟨?_, ?_, ?_⟩
  · simp only [get_event_log]
    rw [foldl_skipNone_wellFormed
      (fun acc e => if keepEvent playerId sceneId e then acc ++ [e] else acc)
      rawLog []]
  · simp only [get_balances]
    rw [foldl_skipNone_wellFormed (balanceFold ownerType ownerId) rawLog []]
  · simp only [get_inventory_snapshot]
    rw [foldl_skipNone_wellFormed (inventoryFold ownerType ownerId) rawLog []]

end GameMaster
